import Mathlib

/-!
# Verification of the tilekiln tile-rendering pipeline

Shallow embedding of the core of `src/dist/tile-kiln.bundle.js`:
the style-function evaluator (stop tables), the worker task protocol,
the cooperative chain scheduler, the tile orchestrator, the draw
gating, and the symbol-label collision pass.  JS numbers are embedded
as rationals; `undefined` as `Option.none`; a JS callback invocation
is recorded in an explicit log field of the state.
-/

namespace Tilekiln

/-! ## Style-function evaluator (`interpFactor`, `buildStopFunc`)

Numeric inputs are embedded as `ℚ`.  `Math.pow` is a host builtin, not
repository code; it is taken as an abstract parameter `pow`.
-/

/-- `interpFactor(base, x0, x, x1)` from the bundle: returns `0` for a
degenerate range, `dx / range` for `base == 1`, and the exponential
blend `(pow base dx - 1) / (pow base range - 1)` otherwise. -/
def interpFactor (pow : ℚ → ℚ → ℚ) (base x0 x x1 : ℚ) : ℚ :=
  let range := x1 - x0
  if range = 0 then 0
  else
    let dx := x - x0
    if base = 1 then dx / range
    else (pow base dx - 1) / (pow base range - 1)

/-- The numeric branch of `getInterpolator`: for stop outputs of JS
type "number" it returns the linear blend `(v1, v2, t) => v1 + t * (v2 - v1)`. -/
def numInterp (v1 v2 t : ℚ) : ℚ := v1 + t * (v2 - v1)

/-- JS `Array.prototype.findIndex`: index of the first match, `-1` when
no element matches. -/
def jsFindIndex (p : α → Bool) (l : List α) : Int :=
  if l.findIdx p = l.length then -1 else (l.findIdx p : Int)

/-- `buildStopFunc(stops, base)` from the bundle, for stops with
numeric inputs and outputs of type `β`.  `getInterpolator` dispatches
on the runtime type of `stops[0][1]`; the chosen interpolator is taken
here as the parameter `interpolate` (`numInterp` for numeric outputs).
The returned closure is
`x => { let iz = stops.findIndex(stop => stop[0] > x); ... }`. -/
def buildStopFunc [Inhabited β] (interpolate : β → β → ℚ → β) (pow : ℚ → ℚ → ℚ)
    (stops : List (ℚ × β)) (base : ℚ) (x : ℚ) : β :=
  let izm := stops.length - 1
  let iz := jsFindIndex (fun stop => stop.1 > x) stops
  if iz = 0 then (stops.getD 0 default).2
  else if iz < 0 then (stops.getD izm default).2
  else
    let s0 := stops.getD (iz - 1).toNat default
    let s1 := stops.getD iz.toNat default
    interpolate s0.2 s1.2 (interpFactor pow base s0.1 x s1.1)

/-! ## Worker task protocol (`initWorker`)

The `tasks` map, the id counter, the active counter, the posted messages
and the recorded callback invocations of one `initWorker` instance.
`canceledPending` is specification instrumentation (not a source field):
it counts the `cancelTask` calls that found their task still tracked.
A response for an id that is not tracked is answered with a cancel
message and nothing else (the early return of `handleMsg`).
-/

variable {F : Type}

structure WTask (F : Type) where
  header : List (String × Nat) := []
  result : List (String × List F) := []

inductive WMsg (F : Type) where
  | error (payload : String)
  | header (payload : List (String × Nat))
  | data (key : String) (payload : List F)
  | done
  | other

inductive WOut where
  | startMsg (id : Nat)
  | cancelMsg (id : Nat)
  | continueMsg (id : Nat)

structure WState (F : Type) where
  tasks : List (Nat × WTask F) := []
  globalMsgId : Nat := 0
  activeTasks : Int := 0
  outbox : List WOut := []
  delivered : List (Nat × Option String × Option (List (String × List F))) := []
  canceledPending : Nat := 0

def initJSON (header : List (String × Nat)) : List (String × List F) :=
  header.map (fun kv => (kv.1, []))

def checkJSON (json : List (String × List F)) (header : List (String × Nat)) : Bool :=
  header.all (fun kv => ((json.lookup kv.1).getD []).length == kv.2)

def pushFeatures (res : List (String × List F)) (key : String) (fs : List F) :
    List (String × List F) :=
  res.map (fun kv => if kv.1 = key then (kv.1, kv.2 ++ fs) else kv)

def eraseKey (id : Nat) (l : List (Nat × WTask F)) : List (Nat × WTask F) :=
  l.eraseP (fun kv => kv.1 == id)

def updateKey (id : Nat) (t : WTask F) (l : List (Nat × WTask F)) : List (Nat × WTask F) :=
  l.map (fun kv => if kv.1 = id then (id, t) else kv)

def startTask (s : WState F) : WState F :=
  { s with activeTasks := s.activeTasks + 1,
           tasks := s.tasks ++ [(s.globalMsgId, {})],
           globalMsgId := s.globalMsgId + 1,
           outbox := s.outbox ++ [WOut.startMsg s.globalMsgId] }

def cancelTask (s : WState F) (id : Nat) : WState F :=
  if (s.tasks.lookup id).isSome then
    { s with outbox := s.outbox ++ [WOut.cancelMsg id],
             tasks := eraseKey id s.tasks,
             canceledPending := s.canceledPending + 1 }
  else s

def handleMsg (s : WState F) (id : Nat) (msg : WMsg F) : WState F :=
  match s.tasks.lookup id with
  | none => { s with outbox := s.outbox ++ [WOut.cancelMsg id] }
  | some task =>
    match msg with
    | WMsg.error payload =>
        { s with delivered := s.delivered ++ [(id, some payload, none)],
                 tasks := eraseKey id s.tasks,
                 activeTasks := s.activeTasks - 1 }
    | WMsg.header h =>
        { s with tasks := updateKey id { header := h, result := initJSON h } s.tasks,
                 outbox := s.outbox ++ [WOut.continueMsg id] }
    | WMsg.data key fs =>
        { s with tasks := updateKey id { task with result := pushFeatures task.result key fs } s.tasks,
                 outbox := s.outbox ++ [WOut.continueMsg id] }
    | WMsg.done =>
        let err := if checkJSON task.result task.header then none
                   else some "ERROR: JSON from worker failed checks!"
        { s with delivered := s.delivered ++ [(id, err, some task.result)],
                 tasks := eraseKey id s.tasks,
                 activeTasks := s.activeTasks - 1 }
    | WMsg.other =>
        { s with delivered := s.delivered ++ [(id, some "ERROR: worker sent bad message type!", none)],
                 tasks := eraseKey id s.tasks,
                 activeTasks := s.activeTasks - 1 }

inductive WEvent (F : Type) where
  | start
  | cancel (id : Nat)
  | recv (id : Nat) (msg : WMsg F)

def wstep (s : WState F) : WEvent F → WState F
  | WEvent.start => startTask s
  | WEvent.cancel id => cancelTask s id
  | WEvent.recv id msg => handleMsg s id msg

def wrun (s : WState F) (evts : List (WEvent F)) : WState F := evts.foldl wstep s

def winit : WState F := {}

def terminalMsg : WMsg F → Bool
  | WMsg.error _ => true
  | WMsg.done => true
  | WMsg.other => true
  | _ => false

/-- Reachable-state invariant of the worker bookkeeping: task keys are
distinct and below the id counter, and the active counter equals the number
of tracked tasks plus the number of cancellations of pending tasks. -/
def WInv (s : WState F) : Prop :=
  (s.tasks.map Prod.fst).Nodup
  ∧ (∀ k ∈ s.tasks.map Prod.fst, k < s.globalMsgId)
  ∧ s.activeTasks = (s.tasks.length : Int) + (s.canceledPending : Int)

/-- The number of features accumulated for field `k` by a list of `data`
message payloads (spec-side counting function). -/
def countKey (k : String) (datas : List (String × List F)) : Nat :=
  ((datas.filter (fun kf => kf.1 == k)).map (fun kf => kf.2.length)).sum

/-- The worker state reached after `start` and a `header` message (proof abbreviation). -/
def wstate2 (H : List (String × Nat)) : WState F :=
  { tasks := [(0, { header := H, result := initJSON H })], globalMsgId := 1,
    activeTasks := 1, outbox := [WOut.startMsg 0, WOut.continueMsg 0],
    delivered := [], canceledPending := 0 }

/-- C2 main statement helper: the full event trace of one worker task. -/
def taskTrace (H : List (String × Nat)) (datas : List (String × List F)) :
    List (WEvent F) :=
  [WEvent.start] ++ [WEvent.recv 0 (WMsg.header H)]
    ++ datas.map (fun kf => WEvent.recv 0 (WMsg.data kf.1 kf.2))
    ++ [WEvent.recv 0 WMsg.done]

/-! ## Tile orchestrator (`initTileFactory` / `checkData`)

Per-tile load bookkeeping: `numToDo` is the outstanding-source counter,
`sources` the per-key loaded data (`none` embeds JS `undefined`), and
`callbackCalls` records each tile-callback invocation with its error
argument.  `console.log(err)` is logging only and is not modelled; the `loadTasks`
record deleted by `checkData` feeds only the cancellation path and is
likewise omitted.
-/

variable {D : Type}

structure TileLoad (D : Type) where
  numToDo : Int
  sources : List (String × Option D) := []
  loaded : Bool := false
  callbackCalls : List (Option String) := []

def jsSetKey (l : List (String × Option D)) (key : String) (v : Option D) :
    List (String × Option D) :=
  if (l.lookup key).isSome
  then l.map (fun kv => if kv.1 = key then (key, v) else kv)
  else l ++ [(key, v)]

def checkData (s : TileLoad D) (err : Option String) (key : String) (data : Option D) :
    TileLoad D :=
  let s1 : TileLoad D :=
    { s with sources := jsSetKey s.sources key data, numToDo := s.numToDo - 1 }
  if s1.numToDo > 0 then s1
  else { s1 with loaded := true, callbackCalls := s1.callbackCalls ++ [none] }

def tileInit (n : Nat) : TileLoad D := { numToDo := (n : Int) }

def runLoad (s : TileLoad D) (evts : List (Option String × String × Option D)) :
    TileLoad D :=
  evts.foldl (fun s e => checkData s e.1 e.2.1 e.2.2) s

/-! ## Draw gating (`drawAll` / `putTogether`)

`drawAllGate` is the synchronous entry of `drawAll`: the guard chain and the
`rendering := true` flag; the boolean records whether any drawing work was
started (draw calls scheduled).  `putTogether` is the completion callback of
a draw pass: it sets `rendered` and clears `rendering`.
-/

structure TileFlags where
  loaded : Bool
  canceled : Bool
  rendering : Bool
  rendered : Bool

def drawAllGate (t : TileFlags) : TileFlags × Bool :=
  if t.canceled then (t, false)
  else if !t.loaded then (t, false)
  else if t.rendering || t.rendered then (t, false)
  else ({ t with rendering := true }, true)

def putTogether (t : TileFlags) : TileFlags :=
  { t with rendered := true, rendering := false }

/-! ## Cooperative chain scheduler (`initChainer`)

The zero-timeout queue: each posted message pops the front entry; an entry
with `undefined` rank (canceled) is skipped; running a chain entry emits the
next step and re-enqueues its continuation at the back with rank 0, exactly
as `chainSyncList`/`callInOrder`/`setZeroTimeout`/`handleMessage` do.
`schedRun n q` collects the labels emitted by `n` consecutive turns.
The final callbacks used in the bundle (`returnResult`, `putTogether`)
ignore the continuation argument `callInOrder` hands them, and a call to
that continuation would only shift an empty array (a no-op), so running the
final entry emits its label and enqueues nothing.
-/

structure ChainJob (α : Type) where
  remaining : List α
  final : α

structure QEntry (α : Type) where
  id : String
  job : ChainJob α
  rank : Option ℚ

def schedStep (q : List (QEntry α)) : List (QEntry α) × List α :=
  match q with
  | [] => ([], [])
  | e :: rest =>
    match e.rank with
    | none => (rest, [])
    | some _ =>
      match e.job.remaining with
      | s :: more => (rest ++ [⟨e.id, ⟨more, e.job.final⟩, some 0⟩], [s])
      | [] => (rest, [e.job.final])

def schedRun : Nat → List (QEntry α) → List (List α)
  | 0, _ => []
  | n + 1, q => (schedStep q).2 :: schedRun n (schedStep q).1

def chainSyncList (steps : List α) (finalCallback : α) (taskId : String)
    (q : List (QEntry α)) : List (QEntry α) :=
  q ++ [⟨taskId, ⟨steps, finalCallback⟩, some 0⟩]

/-! `sortTasks` re-ranks every queued entry and sorts with the comparator
`(a, b) => (a.rank > b.rank) ? 1 : -1`.  In JS any `>` comparison involving
`undefined` is false, so the comparator never returns 0 and is inconsistent
on pairs with an `undefined` rank; ECMAScript then leaves the sort order
implementation-defined.  `jsArraySort` commits to one canonical
comparison sort - the classic stable insertion sort: an element moves past
exactly the adjacent elements the comparator orders it strictly after
(`c(y, x) > 0`).  The mainstream engine algorithms (stable merge sort,
TimSort's binary insertion) disagree with it and each other on inconsistent
comparators, but none of them puts an undefined-ranked entry first on the
counterexample input below. -/

/-- JS greater-than on ranks: any comparison involving `undefined` is false. -/
def rankGT : Option ℚ → Option ℚ → Bool
  | some a, some b => a > b
  | _, _ => false

def jsInsertRev (gt : α → α → Bool) (x : α) : List α → List α
  | [] => [x]
  | y :: ys => if gt y x then y :: jsInsertRev gt x ys else x :: y :: ys

def jsArraySort (gt : α → α → Bool) (l : List α) : List α :=
  (l.foldl (fun acc x => jsInsertRev gt x acc) []).reverse

def sortTasks (ranking : String → Option ℚ) (timeouts : List (QEntry α)) :
    List (QEntry α) :=
  jsArraySort (fun a b => rankGT a.rank b.rank)
    (timeouts.map (fun t => { t with rank := ranking t.id }))

/-! ## Symbol label collision pass (`initLabeler` / `intersects`)

`Box` is the axis-aligned label bounding box `[[xmin,ymin],[xmax,ymax]]`.
`drawLabel` is the per-feature body: measure the text box, drop the feature
if it collides, measure the icon box, drop if it collides, otherwise push
both boxes and draw; the second component of the state records the features
actually drawn.  The measurement functions are the compiled
`textLabeler.measure` / `iconLabeler.measure` closures, taken as parameters
(measuring is pure; the JS measures the icon box only after the text box
passed, which is observationally identical for pure measures).
-/

variable {FT : Type}

structure Box where
  xmin : ℚ
  ymin : ℚ
  xmax : ℚ
  ymax : ℚ

def intersects (b1 b2 : Box) : Bool :=
  if b1.xmin > b2.xmax then false
  else if b2.xmin > b1.xmax then false
  else if b1.ymin > b2.ymax then false
  else if b2.ymin > b1.ymax then false
  else true

def collides (boxes : List Box) : Option Box → Bool
  | none => false
  | some newBox => boxes.any (fun box => intersects box newBox)

def drawLabel (measureText measureIcon : FT → Option Box)
    (st : List Box × List FT) (f : FT) : List Box × List FT :=
  let textBox := measureText f
  if collides st.1 textBox then st
  else
    let iconBox := measureIcon f
    if collides st.1 iconBox then st
    else (st.1 ++ textBox.toList ++ iconBox.toList, st.2 ++ [f])

def labelPass (measureText measureIcon : FT → Option Box)
    (st : List Box × List FT) (features : List FT) : List Box × List FT :=
  features.foldl (drawLabel measureText measureIcon) st

/-! ## Style-property compilation (`buildStyleFunc`, `getStyleFunc`,
`collectGetters`, `addPainterFunctions`)

`StyleObj` is a style-specification object (absent fields are `none`);
`StyleVal.lit` stands for any non-object literal value, embedded as a
rational.  `getStyleFunc` returns `none` exactly where the bundle logs
"ERROR in buildStyleFunc" and returns `undefined` (missing stops, fewer
than 2 stops, or a first stop that is not a 2-element pair).
`buildStyleFunc` then executes `styleFunc.type = "zoom"` (resp.
`"property"`) on that result unconditionally; on `undefined` this is a
setup-time TypeError, embedded as `Except.error` (on success the `type`
tag carries no further role for the claims and is not modelled).  Value
semantics of the success path reuses `buildStopFunc` with the numeric
interpolator; a missing feature property (JS `undefined`) is embedded as
0 - no claim depends on it.  `collectGetters` iterates the key/default
pairs with `forEach`, so the first thrown TypeError aborts the iteration
and propagates; the background painter's pairs carry no explicit
defaults (the default value plays no role on the throwing path).
`addPainterFunctions` builds one painter per style layer inside the
`loadStyle` promise chain (modelled for background layers, each layer
given by its paint object); an exception from any layer propagates to
the chain's catch, which reports the error for the whole style load, so
no later layer is compiled.
-/

def Feature : Type := List (String × ℚ)

structure StyleObj where
  type : Option String := none
  property : Option String := none
  base : Option ℚ := none
  stops : Option (List (List ℚ)) := none

inductive StyleVal where
  | lit (v : ℚ)
  | spec (o : StyleObj)

def getStyleFunc (pow : ℚ → ℚ → ℚ) (style : StyleObj) (getArg : ℚ → Feature → ℚ) :
    Option (ℚ → Feature → ℚ) :=
  if style.type = some "identity" then some getArg
  else
    match style.stops with
    | none => none
    | some stops =>
      if stops.length < 2 ∨ stops.headI.length ≠ 2 then none
      else some (fun zoom feature =>
        buildStopFunc numInterp pow (stops.map (fun st => (st.headI, st.getD 1 0)))
          (style.base.getD 1) (getArg zoom feature))

def buildStyleFunc (pow : ℚ → ℚ → ℚ) (style : Option StyleVal) (defaultVal : ℚ) :
    Except String (ℚ → Feature → ℚ) :=
  match style with
  | none => Except.ok (fun _ _ => defaultVal)
  | some (StyleVal.lit v) => Except.ok (fun _ _ => v)
  | some (StyleVal.spec o) =>
    if o.property = none ∨ o.property = some "zoom" then
      match getStyleFunc pow o (fun zoom _ => zoom) with
      | some f => Except.ok f
      | none => Except.error "TypeError: Cannot set properties of undefined"
    else
      match getStyleFunc pow o
          (fun _ feature => ((feature : List (String × ℚ)).lookup (o.property.getD "")).getD 0) with
      | some f => Except.ok f
      | none => Except.error "TypeError: Cannot set properties of undefined"

def collectGetters (pow : ℚ → ℚ → ℚ) (properties : List (String × StyleVal)) :
    List (String × ℚ) → Except String (List (String × (ℚ → Feature → ℚ)))
  | [] => Except.ok []
  | kd :: rest =>
    match buildStyleFunc pow (properties.lookup kd.1) kd.2 with
    | Except.error e => Except.error e
    | Except.ok f =>
      match collectGetters pow properties rest with
      | Except.error e => Except.error e
      | Except.ok gs => Except.ok ((kd.1, f) :: gs)

def initBackgroundFillSetup (pow : ℚ → ℚ → ℚ)
    (paintProps : List (String × StyleVal)) :
    Except String (List (String × (ℚ → Feature → ℚ))) :=
  collectGetters pow paintProps [("background-color", 0), ("background-opacity", 0)]

def addPainterFunctions (pow : ℚ → ℚ → ℚ) :
    List (List (String × StyleVal)) →
    Except String (List (List (String × (ℚ → Feature → ℚ))))
  | [] => Except.ok []
  | p :: rest =>
    match initBackgroundFillSetup pow p with
    | Except.error e => Except.error e
    | Except.ok g =>
      match addPainterFunctions pow rest with
      | Except.error e => Except.error e
      | Except.ok gs => Except.ok (g :: gs)
/-- Helper: `List.findIdx` characterization on an index whose predecessors all fail. -/
theorem findIdx_eq_of (p : α → Bool) (xs : List α) (i : Nat) (hi : i < xs.length)
    (ht : p (xs.get ⟨i, hi⟩) = true) (hf : ∀ j (hj : j < i), p (xs.get ⟨j, by omega⟩) = false) :
    xs.findIdx p = i := by
  have h1 : xs.findIdx p ≤ i := by
    by_contra h
    push_neg at h
    exact absurd (List.not_of_lt_findIdx h) (by simp_all)
  have h2 : ¬ xs.findIdx p < i := by
    intro h
    have hlt : xs.findIdx p < xs.length := by omega
    have := @List.findIdx_getElem _ p xs hlt
    have hj := hf _ h
    simp only [List.get_eq_getElem] at hj
    exact absurd this (by simp [hj])
  omega

/-- C1: for every stop table with at least 2 stops and strictly increasing
inputs, the compiled stop function clamps below the first stop to the first
output, clamps at or above the last stop input to the last output, and
otherwise blends the bracketing pair with the factor
`t = (x - x0)/(x1 - x0)` for `base == 1`,
`t = (base^(x-x0) - 1)/(base^(x1-x0) - 1)` otherwise, and `t = 0` for a
degenerate `x1 == x0`; for the numeric table `[[0,a],[10,b]]` with `base = 1`
the value at `x = 5` is the arithmetic midpoint of `a` and `b`. -/
theorem stopFunc_spec (pow : ℚ → ℚ → ℚ) (stops : List (ℚ × ℚ)) (base x : ℚ)
    (h2 : 2 ≤ stops.length)
    (hmono : stops.Chain' (fun a b => a.1 < b.1)) :
    (x < (stops.getD 0 default).1 →
      buildStopFunc numInterp pow stops base x = (stops.getD 0 default).2)
  ∧ ((stops.getD (stops.length - 1) default).1 ≤ x →
      buildStopFunc numInterp pow stops base x = (stops.getD (stops.length - 1) default).2)
  ∧ (∀ i (hi : i + 1 < stops.length),
      (stops.get ⟨i, by omega⟩).1 ≤ x → x < (stops.get ⟨i + 1, hi⟩).1 →
      buildStopFunc numInterp pow stops base x
        = numInterp (stops.get ⟨i, by omega⟩).2 (stops.get ⟨i + 1, hi⟩).2
            (interpFactor pow base (stops.get ⟨i, by omega⟩).1 x (stops.get ⟨i + 1, hi⟩).1))
  ∧ (∀ x0 x1 : ℚ, (x1 = x0 → interpFactor pow base x0 x x1 = 0)
      ∧ (x1 ≠ x0 → base = 1 → interpFactor pow base x0 x x1 = (x - x0) / (x1 - x0))
      ∧ (x1 ≠ x0 → base ≠ 1 →
          interpFactor pow base x0 x x1 = (pow base (x - x0) - 1) / (pow base (x1 - x0) - 1)))
  ∧ (∀ a b : ℚ, buildStopFunc numInterp pow [(0, a), (10, b)] 1 5 = (a + b) / 2) := by
  haveI : IsTrans (ℚ × ℚ) (fun a b => a.1 < b.1) := ⟨fun a b c h1 h2 => lt_trans h1 h2⟩
  rw [List.chain'_iff_pairwise, List.pairwise_iff_get] at hmono
  have hne : stops ≠ [] := by intro h; simp [h] at h2
  have hlen0 : 0 < stops.length := by omega
  refine ⟨?_, ?_, ?_, ?_, ?_⟩
  · -- below first stop
    intro hx
    have hfind : stops.findIdx (fun stop => stop.1 > x) = 0 := by
      apply findIdx_eq_of _ _ 0 hlen0
      · simp only [List.get_eq_getElem]
        rw [List.getD_eq_getElem _ _ hlen0] at hx
        simp [hx]
      · omega
    simp only [buildStopFunc, jsFindIndex, hfind]
    have : ¬ (0 = stops.length) := by omega
    simp [this]
  · -- at or above last stop
    intro hx
    have hall : ∀ s ∈ stops, s.1 ≤ x := by
      intro s hs
      rw [List.mem_iff_get] at hs
      obtain ⟨⟨j, hj⟩, rfl⟩ := hs
      rw [List.getD_eq_getElem _ _ (by omega : stops.length - 1 < stops.length)] at hx
      rcases Nat.lt_or_ge j (stops.length - 1) with hlt | hge
      · have := hmono ⟨j, hj⟩ ⟨stops.length - 1, by omega⟩ (by simpa using hlt)
        simp only [List.get_eq_getElem] at this ⊢
        exact le_trans (le_of_lt this) hx
      · have : j = stops.length - 1 := by omega
        subst this
        simpa using hx
    have hfind : stops.findIdx (fun stop => stop.1 > x) = stops.length := by
      rw [List.findIdx_eq_length]
      intro s hs
      simp [not_lt.mpr (hall s hs)]
    simp only [buildStopFunc, jsFindIndex, hfind]
    simp [show ¬ ((stops.length : Int) = 0) by omega]
  · -- bracketing pair
    intro i hi hx0 hx1
    have hfind : stops.findIdx (fun stop => stop.1 > x) = i + 1 := by
      apply findIdx_eq_of _ _ (i + 1) hi
      · simp only [List.get_eq_getElem] at hx1 ⊢
        simp [hx1]
      · intro j hj
        have hjx : (stops.get ⟨j, by omega⟩).1 ≤ x := by
          rcases Nat.lt_or_ge j i with hlt | hge
          · have := hmono ⟨j, by omega⟩ ⟨i, by omega⟩ (by simpa using hlt)
            exact le_trans (le_of_lt this) hx0
          · have : j = i := by omega
            subst this; exact hx0
        simp only [List.get_eq_getElem] at hjx ⊢
        simp [not_lt.mpr hjx]
    simp only [buildStopFunc, jsFindIndex, hfind]
    have hne1 : ¬ ((i + 1 : Nat) = stops.length) := by omega
    simp only [hne1, if_false]
    have hc1 : ¬ (((i:Int) + 1) = 0) := by omega
    have hc2 : ¬ (((i:Int) + 1) < 0) := by omega
    simp only [Int.ofNat_eq_coe, Nat.cast_add, Nat.cast_one] at *
    rw [if_neg (by exact_mod_cast hc1), if_neg (by exact_mod_cast hc2)]
    have e1 : (((i:Int) + 1) - 1).toNat = i := by omega
    have e2 : ((i:Int) + 1).toNat = i + 1 := by omega
    rw [show ((i:Int) + 1) - 1 = (i:Int) by ring]
    simp only [Int.toNat_ofNat, Int.toNat_natCast]
    rw [e2]
    rw [List.getD_eq_getElem _ _ (by omega : i < stops.length),
        List.getD_eq_getElem _ _ hi]
    simp [List.get_eq_getElem]
  · -- interpFactor formulas
    intro x0 x1
    refine ⟨?_, ?_, ?_⟩
    · intro h; simp [interpFactor, h]
    · intro h hb
      have : x1 - x0 ≠ 0 := sub_ne_zero.mpr h
      simp [interpFactor, this, hb]
    · intro h hb
      have : x1 - x0 ≠ 0 := sub_ne_zero.mpr h
      simp [interpFactor, this, hb]
  · -- midpoint
    intro a b
    have hfind : List.findIdx (fun stop => stop.1 > (5:ℚ)) [((0:ℚ), a), (10, b)] = 1 := by
      simp [List.findIdx_cons]
      norm_num
    simp only [buildStopFunc, jsFindIndex, hfind]
    norm_num [interpFactor, numInterp]
    ring

/-- Witness for C1: the concrete table `[[0,2],[10,4]]` evaluated at `5` gives `3`. -/
theorem stopFunc_spec_witness :
    buildStopFunc numInterp (fun _ _ => 0) [((0:ℚ), 2), (10, 4)] 1 5 = 3 := by
  have h := stopFunc_spec (fun _ _ => 0) [((0:ℚ), 2), (10, 4)] 1 5 (by norm_num)
    (by simp [List.chain'_cons])
  have h5 := h.2.2.2.2 2 4
  norm_num at h5
  exact h5

/-! ## Worker protocol theorems -/

theorem lookup_eq_none_iff (l : List (Nat × WTask F)) (id : Nat) :
    l.lookup id = none ↔ ∀ kv ∈ l, kv.1 ≠ id := by
  induction l with
  | nil => simp
  | cons kv rest ih =>
    obtain ⟨k, v⟩ := kv
    by_cases h : k = id
    · subst h; simp [List.lookup]
    · have hbeq : (id == k) = false := by simp [Ne.symm h]
      simp only [List.lookup, hbeq, List.mem_cons, ih]
      constructor
      · rintro hr kv (rfl | hm)
        · exact h
        · exact hr kv hm
      · intro hr kv hm
        exact hr kv (Or.inr hm)

theorem eraseKey_of_lookup_none (l : List (Nat × WTask F)) (id : Nat)
    (h : l.lookup id = none) : eraseKey id l = l := by
  rw [lookup_eq_none_iff] at h
  induction l with
  | nil => rfl
  | cons kv rest ih =>
    have hk : kv.1 ≠ id := h kv (by simp)
    have hbeq : (kv.1 == id) = false := by simp [hk]
    simp only [eraseKey, List.eraseP_cons, hbeq, cond_false]
    have := ih (fun kv h2 => h kv (by simp [h2]))
    simp only [eraseKey] at this
    rw [this]

theorem lookup_eraseKey_self (l : List (Nat × WTask F)) (id : Nat)
    (hnd : (l.map Prod.fst).Nodup) : (eraseKey id l).lookup id = none := by
  induction l with
  | nil => rfl
  | cons kv rest ih =>
    obtain ⟨k, v⟩ := kv
    simp only [List.map_cons, List.nodup_cons] at hnd
    by_cases h : k = id
    · subst h
      simp only [eraseKey, List.eraseP_cons, beq_self_eq_true, cond_true]
      rw [lookup_eq_none_iff]
      intro kv hm hk
      exact hnd.1 (hk ▸ List.mem_map_of_mem Prod.fst hm)
    · have hbeq : (k == id) = false := by simp [h]
      have hbeq2 : (id == k) = false := by simp [Ne.symm h]
      simp only [eraseKey, List.eraseP_cons, hbeq, cond_false]
      simp only [List.lookup, hbeq2]
      have := ih hnd.2
      simpa [eraseKey] using this

theorem keys_updateKey (id : Nat) (t : WTask F) (l : List (Nat × WTask F)) :
    (updateKey id t l).map Prod.fst = l.map Prod.fst := by
  induction l with
  | nil => rfl
  | cons kv rest ih =>
    by_cases h : kv.1 = id
    · simp [updateKey, h] at ih ⊢
      simpa [← h] using ih
    · simp [updateKey, h] at ih ⊢
      exact ih

theorem length_eraseKey_of_lookup (l : List (Nat × WTask F)) (id : Nat)
    (h : (l.lookup id).isSome) : l.length = (eraseKey id l).length + 1 := by
  induction l with
  | nil => simp [List.lookup] at h
  | cons kv rest ih =>
    obtain ⟨k, v⟩ := kv
    by_cases hk : k = id
    · subst hk
      simp [eraseKey, List.eraseP_cons]
    · have hbeq : (k == id) = false := by simp [hk]
      have hbeq2 : (id == k) = false := by simp [Ne.symm hk]
      simp only [List.lookup, hbeq2] at h
      simp only [eraseKey, List.eraseP_cons, hbeq, cond_false, List.length_cons]
      have := ih h
      simp only [eraseKey] at this
      omega

theorem eraseKey_sublist (id : Nat) (l : List (Nat × WTask F)) :
    (eraseKey id l).Sublist l := List.eraseP_sublist l

theorem winv_step (s : WState F) (e : WEvent F) (h : WInv s) : WInv (wstep s e) := by
  obtain ⟨hnd, hbd, hcnt⟩ := h
  cases e with
  | start =>
    refine ⟨?_, ?_, ?_⟩
    · simp only [wstep, startTask, List.map_append]
      rw [List.nodup_append]
      refine ⟨hnd, by simp, ?_⟩
      intro k hk
      simp only [List.map_cons, List.map_nil, List.mem_singleton]
      intro hx
      exact absurd (hbd k hk) (by omega)
    · intro k hk
      simp only [wstep, startTask, List.map_append, List.mem_append] at hk
      rcases hk with hk | hk
      · have := hbd k hk; simp only [wstep, startTask]; omega
      · simp only [List.map_cons, List.map_nil, List.mem_singleton] at hk
        simp only [wstep, startTask]; omega
    · simp only [wstep, startTask, List.length_append, List.length_cons, List.length_nil]
      push_cast
      omega
  | cancel id =>
    simp only [wstep, cancelTask]
    by_cases hs : (s.tasks.lookup id).isSome
    · simp only [hs, if_true]
      refine ⟨?_, ?_, ?_⟩
      · exact ((eraseKey_sublist id s.tasks).map Prod.fst).nodup hnd
      · intro k hk
        exact hbd k (((eraseKey_sublist id s.tasks).map Prod.fst).mem hk)
      · have := length_eraseKey_of_lookup s.tasks id hs
        push_cast
        omega
    · simp only [hs, if_false]
      exact ⟨hnd, hbd, hcnt⟩
  | recv id msg =>
    simp only [wstep, handleMsg]
    cases hl : s.tasks.lookup id with
    | none => exact ⟨hnd, hbd, hcnt⟩
    | some task =>
      have hsome : (s.tasks.lookup id).isSome := by simp [hl]
      have hlen := length_eraseKey_of_lookup s.tasks id hsome
      have herased : WInv { s with
          tasks := eraseKey id s.tasks, activeTasks := s.activeTasks - 1 } := by
        refine ⟨((eraseKey_sublist id s.tasks).map Prod.fst).nodup hnd, ?_, ?_⟩
        · intro k hk
          exact hbd k (((eraseKey_sublist id s.tasks).map Prod.fst).mem hk)
        · simp only []
          omega
      have hupd : ∀ t : WTask F, WInv { s with tasks := updateKey id t s.tasks } := by
        intro t
        refine ⟨?_, ?_, ?_⟩
        · rw [keys_updateKey]; exact hnd
        · intro k hk; rw [keys_updateKey] at hk; exact hbd k hk
        · simp only [updateKey, List.length_map]
          exact hcnt
      cases msg with
      | error payload => exact ⟨herased.1, herased.2.1, herased.2.2⟩
      | header hp =>
        have := hupd { header := hp, result := initJSON hp }
        exact ⟨this.1, this.2.1, this.2.2⟩
      | data key fs =>
        have := hupd { task with result := pushFeatures task.result key fs }
        exact ⟨this.1, this.2.1, this.2.2⟩
      | done => exact ⟨herased.1, herased.2.1, herased.2.2⟩
      | other => exact ⟨herased.1, herased.2.1, herased.2.2⟩

theorem winv_run (s : WState F) (evts : List (WEvent F)) (h : WInv s) :
    WInv (wrun s evts) := by
  induction evts generalizing s with
  | nil => exact h
  | cons e rest ih => exact ih _ (winv_step s e h)

theorem winv_init : WInv (winit : WState F) := by
  refine ⟨by simp [winit], by simp [winit], by simp [winit]⟩

/-- C7: canceling the same task id a second time is a no-op (no message is
posted and the task table is unchanged), after any cancel the id is no longer
tracked, and a response for an untracked id only posts a cancel
acknowledgement back to the worker and invokes no callback. -/
theorem cancel_idem (evts : List (WEvent F)) (id : Nat) (msg : WMsg F) :
    cancelTask (cancelTask (wrun winit evts) id) id = cancelTask (wrun winit evts) id
  ∧ (cancelTask (wrun winit evts) id).tasks.lookup id = none
  ∧ (∀ s : WState F, s.tasks.lookup id = none →
      handleMsg s id msg = { s with outbox := s.outbox ++ [WOut.cancelMsg id] }) := by
  have hinv := winv_run (winit : WState F) evts winv_init
  have h2 : (cancelTask (wrun (winit : WState F) evts) id).tasks.lookup id = none := by
    by_cases hs : ((wrun (winit : WState F) evts).tasks.lookup id).isSome
    · simp only [cancelTask, hs, if_true]
      exact lookup_eraseKey_self _ _ hinv.1
    · simp only [cancelTask, hs, if_false]
      exact Option.not_isSome_iff_eq_none.mp hs
  refine ⟨?_, h2, ?_⟩
  · have hnone : ¬ ((cancelTask (wrun (winit : WState F) evts) id).tasks.lookup id).isSome
        = true := by simp [h2]
    rw [cancelTask, if_neg hnone]
  · intro s hnone
    simp only [handleMsg, hnone]

/-- Witness for C7 at the trace `[start]` and id `5`. -/
theorem cancel_idem_witness :
    cancelTask (cancelTask (wrun (winit : WState Nat) [WEvent.start]) 5) 5
      = cancelTask (wrun (winit : WState Nat) [WEvent.start]) 5
  ∧ handleMsg (winit : WState Nat) 5 WMsg.done
      = { (winit : WState Nat) with outbox := [WOut.cancelMsg 5] } := by
  have h := @cancel_idem Nat [WEvent.start] 5 WMsg.done
  refine ⟨h.1, ?_⟩
  have h3 := h.2.2 winit (by rfl)
  simpa [winit] using h3

theorem wstep_canceledPending_mono (s : WState F) (e : WEvent F) :
    s.canceledPending ≤ (wstep s e).canceledPending := by
  cases e with
  | start => simp [wstep, startTask]
  | cancel id =>
    by_cases hs : (s.tasks.lookup id).isSome
    · simp [wstep, cancelTask, hs]
    · simp [wstep, cancelTask, hs]
  | recv id msg =>
    cases hl : s.tasks.lookup id with
    | none => simp [wstep, handleMsg, hl]
    | some task => cases msg <;> simp [wstep, handleMsg, hl]

/-- C10: in every reachable worker state the active counter equals the number
of tracked tasks plus the number of cancellations that hit a pending task;
`startTask` increments the counter, `cancelTask` never decrements it, a
response decrements it exactly when the id is still tracked and the message is
terminal (`error`/`done`/unrecognized), and the cancellation count never
decreases, so a task canceled while pending leaves the counter permanently
elevated by one. -/
theorem activeTasks_leak (evts : List (WEvent F)) :
    (wrun winit evts).activeTasks
      = ((wrun winit evts).tasks.length : Int) + ((wrun winit evts).canceledPending : Int)
  ∧ (∀ s : WState F, (startTask s).activeTasks = s.activeTasks + 1)
  ∧ (∀ (s : WState F) (id : Nat), (cancelTask s id).activeTasks = s.activeTasks)
  ∧ (∀ id : Nat, (cancelTask (wrun winit evts) id).tasks.lookup id = none)
  ∧ (∀ (s : WState F) (id : Nat) (msg : WMsg F),
      (handleMsg s id msg).activeTasks =
        if ((s.tasks.lookup id).isSome && terminalMsg msg) = true
        then s.activeTasks - 1 else s.activeTasks)
  ∧ (∀ (s : WState F) (more : List (WEvent F)),
      s.canceledPending ≤ (wrun s more).canceledPending) := by
  refine ⟨(winv_run (winit : WState F) evts winv_init).2.2, fun s => rfl, ?_, ?_, ?_, ?_⟩
  case refine_2 =>
    intro id
    by_cases hs : ((wrun (winit : WState F) evts).tasks.lookup id).isSome
    · simp only [cancelTask, hs, if_true]
      exact lookup_eraseKey_self _ _ (winv_run (winit : WState F) evts winv_init).1
    · simp only [cancelTask, hs, if_false]
      exact Option.not_isSome_iff_eq_none.mp hs
  · intro s id
    by_cases hs : (s.tasks.lookup id).isSome
    · simp [cancelTask, hs]
    · simp [cancelTask, hs]
  · intro s id msg
    cases hl : s.tasks.lookup id with
    | none => cases msg <;> simp [handleMsg, hl, terminalMsg]
    | some task => cases msg <;> simp [handleMsg, hl, terminalMsg]
  · intro s more
    induction more generalizing s with
    | nil => exact le_refl _
    | cons e rest ih =>
      exact le_trans (wstep_canceledPending_mono s e) (ih (wstep s e))

theorem lookup_pushFeatures (r : List (String × List F)) (k key : String) (fs : List F) :
    (pushFeatures r key fs).lookup k
      = (r.lookup k).map (fun v => if key = k then v ++ fs else v) := by
  induction r with
  | nil => rfl
  | cons kv rest ih =>
    obtain ⟨k0, v⟩ := kv
    simp only [pushFeatures, List.map_cons] at ih ⊢
    by_cases hkey : k0 = key
    · subst hkey
      simp only [if_pos rfl]
      by_cases hk : k = k0
      · subst hk
        simp [List.lookup]
      · have hbeq : (k == k0) = false := by simp [hk]
        have hne : ¬ (k0 = k) := fun hc => hk hc.symm
        simp only [List.lookup, hbeq]
        rw [ih]
    · simp only [if_neg hkey]
      by_cases hk : k = k0
      · subst hk
        have hne2 : ¬ (key = k) := fun hc => hkey hc.symm
        simp [List.lookup, hne2]
      · have hbeq : (k == k0) = false := by simp [hk]
        simp only [List.lookup, hbeq]
        rw [ih]

theorem lookup_foldl_push (datas : List (String × List F)) (r : List (String × List F))
    (k : String) :
    (datas.foldl (fun acc kf => pushFeatures acc kf.1 kf.2) r).lookup k
      = (r.lookup k).map
          (fun v => v ++ ((datas.filter (fun kf => kf.1 == k)).map Prod.snd).flatten) := by
  induction datas generalizing r with
  | nil =>
    cases h : r.lookup k <;> simp [h]
  | cons kf rest ih =>
    simp only [List.foldl_cons]
    rw [ih, lookup_pushFeatures]
    by_cases hk : kf.1 = k
    · have hbeq : (kf.1 == k) = true := by simp [hk]
      cases h : r.lookup k <;>
        simp [h, hk, hbeq, List.filter_cons, List.append_assoc]
    · have hbeq : (kf.1 == k) = false := by simp [hk]
      cases h : r.lookup k <;>
        simp [h, hk, hbeq, List.filter_cons]

theorem lookup_initJSON (H : List (String × Nat)) (k : String)
    (hk : k ∈ H.map Prod.fst) :
    (initJSON H : List (String × List F)).lookup k = some [] := by
  induction H with
  | nil => simp at hk
  | cons kv rest ih =>
    obtain ⟨k0, c⟩ := kv
    by_cases h : k = k0
    · subst h
      simp [initJSON, List.lookup]
    · have hbeq : (k == k0) = false := by simp [h]
      simp only [List.map_cons, List.mem_cons] at hk
      rcases hk with hk | hk
      · exact absurd hk h
      · simp only [initJSON, List.map_cons, List.lookup, hbeq]
        simpa [initJSON] using ih hk

theorem checkJSON_accum (H : List (String × Nat)) (datas : List (String × List F)) :
    checkJSON (datas.foldl (fun acc kf => pushFeatures acc kf.1 kf.2) (initJSON H)) H = true
      ↔ ∀ kv ∈ H, countKey kv.1 datas = kv.2 := by
  rw [checkJSON, List.all_eq_true]
  apply Iff.of_eq
  apply forall_congr
  intro kv
  apply forall_congr
  intro hm
  rw [lookup_foldl_push, lookup_initJSON]
  · show (((List.map Prod.snd (List.filter (fun kf => kf.1 == kv.1) datas)).flatten.length
        == kv.2) = true) = (countKey kv.1 datas = kv.2)
    rw [eq_iff_iff, beq_iff_eq, List.length_flatten, List.map_map, countKey]
    exact Iff.rfl
  · exact List.mem_map_of_mem Prod.fst hm

theorem wrun_data_run (datas : List (String × List F)) (s : WState F) (id : Nat)
    (task : WTask F) (h : s.tasks = [(id, task)]) :
    ((wrun s (datas.map (fun kf => WEvent.recv id (WMsg.data kf.1 kf.2)))).tasks
        = [(id, { task with
            result := datas.foldl (fun r kf => pushFeatures r kf.1 kf.2) task.result })])
  ∧ (wrun s (datas.map (fun kf => WEvent.recv id (WMsg.data kf.1 kf.2)))).delivered
        = s.delivered := by
  induction datas generalizing s task with
  | nil =>
    refine ⟨?_, rfl⟩
    simp only [List.map_nil, wrun, List.foldl_nil, List.foldl_nil]
    rw [h]
  | cons kf rest ih =>
    simp only [List.map_cons, wrun, List.foldl_cons]
    have hlook : s.tasks.lookup id = some task := by
      rw [h]; simp [List.lookup]
    have hstep : wstep s (WEvent.recv id (WMsg.data kf.1 kf.2))
        = { s with
            tasks := [(id, { task with result := pushFeatures task.result kf.1 kf.2 })],
            outbox := s.outbox ++ [WOut.continueMsg id] } := by
      simp only [wstep, handleMsg, hlook]
      rw [h]
      simp [updateKey]
    rw [hstep]
    have := ih { s with
        tasks := [(id, { task with result := pushFeatures task.result kf.1 kf.2 })],
        outbox := s.outbox ++ [WOut.continueMsg id] }
      { task with result := pushFeatures task.result kf.1 kf.2 } rfl
    simpa [wrun] using this

/-- C2: running one task through `start`, a `header` declaring per-field
counts, any list of `data` messages, and `done`, the callback is invoked once
with a null error if and only if every field declared in the header has
accumulated exactly the declared number of features; otherwise the error slot
carries the validation-error string (the JS callback convention flags failure
by a non-null first argument). -/
theorem done_validation (H : List (String × Nat)) (datas : List (String × List F))
    (hkeys : ∀ kf ∈ datas, kf.1 ∈ H.map Prod.fst) :
    ∃ err res,
      (wrun (winit : WState F) (taskTrace H datas)).delivered = [(0, err, some res)]
      ∧ (err = none ↔ ∀ kv ∈ H, countKey kv.1 datas = kv.2)
      ∧ (err = none ∨ err = some "ERROR: JSON from worker failed checks!") := by
  have hs1 : wrun (winit : WState F) [WEvent.start]
      = { tasks := [(0, {})], globalMsgId := 1, activeTasks := 1,
          outbox := [WOut.startMsg 0], delivered := [], canceledPending := 0 } := rfl
  have hs2 : wrun (winit : WState F) ([WEvent.start] ++ [WEvent.recv 0 (WMsg.header H)])
      = wstate2 H := by
    rw [wrun, List.foldl_append]
    show wstep (wrun winit [WEvent.start]) (WEvent.recv 0 (WMsg.header H)) = _
    rw [hs1]
    simp [wstep, handleMsg, List.lookup, updateKey, wstate2]
  have hdata := wrun_data_run datas (wstate2 H) 0 { header := H, result := initJSON H } rfl
  have hlook3 : (wrun (wstate2 H)
        (datas.map (fun kf => WEvent.recv 0 (WMsg.data kf.1 kf.2)))).tasks.lookup 0
      = some { header := H,
               result := datas.foldl (fun r kf => pushFeatures r kf.1 kf.2) (initJSON H) } := by
    rw [hdata.1]
    simp [List.lookup, initJSON]
  have hsplit : taskTrace H datas
      = ([WEvent.start] ++ [WEvent.recv 0 (WMsg.header H)])
        ++ datas.map (fun kf => WEvent.recv 0 (WMsg.data kf.1 kf.2))
        ++ [WEvent.recv 0 WMsg.done] := by
    simp [taskTrace]
  refine ⟨(if checkJSON (datas.foldl (fun r kf => pushFeatures r kf.1 kf.2) (initJSON H)) H
      then none else some "ERROR: JSON from worker failed checks!"),
    datas.foldl (fun r kf => pushFeatures r kf.1 kf.2) (initJSON H), ?_, ?_, ?_⟩
  · rw [hsplit, wrun, List.foldl_append, List.foldl_append]
    show (wstep (wrun (wrun winit ([WEvent.start] ++ [WEvent.recv 0 (WMsg.header H)]))
        (datas.map (fun kf => WEvent.recv 0 (WMsg.data kf.1 kf.2))))
        (WEvent.recv 0 WMsg.done)).delivered = _
    rw [hs2]
    simp only [wstep, handleMsg, hlook3]
    rw [hdata.2]
    simp [wstate2]
  · by_cases hchk : checkJSON (datas.foldl (fun r kf => pushFeatures r kf.1 kf.2) (initJSON H)) H
    · simp only [hchk, if_true, true_iff]
      exact fun kv hm => ((checkJSON_accum H datas).mp hchk) kv hm
    · simp only [hchk, if_false]
      constructor
      · intro hc; exact absurd hc (by simp)
      · intro hall
        exact absurd ((checkJSON_accum H datas).mpr hall) hchk
  · by_cases hchk : checkJSON (datas.foldl (fun r kf => pushFeatures r kf.1 kf.2) (initJSON H)) H
    · left; simp [hchk]
    · right; simp [hchk]

/-- Witness for C2: header declaring two features for field `a`, and two
one-feature data batches. -/
theorem done_validation_witness :
    ∃ err res,
      (wrun (winit : WState Nat)
          (taskTrace [("a", 2)] [("a", [1]), ("a", [2])])).delivered
        = [(0, err, some res)]
      ∧ (err = none ↔ ∀ kv ∈ [("a", 2)], countKey kv.1 [("a", [1]), ("a", [2])] = kv.2)
      ∧ (err = none ∨ err = some "ERROR: JSON from worker failed checks!") :=
  done_validation [("a", 2)] [("a", [1]), ("a", [2])] (by simp)
/-! ## Tile orchestrator theorems -/

theorem runLoad_partial (evts : List (Option String × String × Option D)) (s : TileLoad D)
    (hld : s.loaded = false) (hcb : s.callbackCalls = [])
    (hlt : (evts.length : Int) < s.numToDo) :
    (runLoad s evts).loaded = false ∧ (runLoad s evts).callbackCalls = [] := by
  induction evts generalizing s with
  | nil => exact ⟨hld, hcb⟩
  | cons e rest ih =>
    simp only [runLoad, List.foldl_cons]
    simp only [List.length_cons] at hlt
    push_cast at hlt
    have hgt : s.numToDo - 1 > 0 := by omega
    have hstep : checkData s e.1 e.2.1 e.2.2
        = { s with sources := jsSetKey s.sources e.2.1 e.2.2, numToDo := s.numToDo - 1 } := by
      simp only [checkData, hgt, if_pos]
    rw [hstep]
    exact ih _ hld hcb (by push_cast; omega)

theorem runLoad_complete (evts : List (Option String × String × Option D)) (s : TileLoad D)
    (hld : s.loaded = false) (hcb : s.callbackCalls = [])
    (hlen : (evts.length : Int) = s.numToDo) (hpos : 0 < evts.length) :
    (runLoad s evts).loaded = true ∧ (runLoad s evts).callbackCalls = [none] := by
  induction evts generalizing s with
  | nil => simp at hpos
  | cons e rest ih =>
    simp only [runLoad, List.foldl_cons]
    simp only [List.length_cons] at hlen
    push_cast at hlen
    cases rest with
    | nil =>
      have hone : s.numToDo = 1 := by simp at hlen; omega
      have hng : ¬ (s.numToDo - 1 > 0) := by omega
      simp [runLoad, checkData, hng, hcb]
    | cons e2 rest2 =>
      have hgt : s.numToDo - 1 > 0 := by
        simp only [List.length_cons] at hlen
        push_cast at hlen
        omega
      have hstep : checkData s e.1 e.2.1 e.2.2
          = { s with sources := jsSetKey s.sources e.2.1 e.2.2, numToDo := s.numToDo - 1 } := by
        simp only [checkData, hgt, if_pos]
      rw [hstep]
      exact ih _ hld hcb (by push_cast; omega) (by simp)

/-- C3: with `n` declared tile sources, the tile is flagged `loaded` and the
callback fires exactly once, with a null error, exactly when all `n` sources
have reported (each completion may carry an error or data, with no effect on
the outcome); after any shorter sequence of reports the tile is not loaded and
no callback has fired. -/
theorem tile_completion (n : Nat) (evts : List (Option String × String × Option D)) :
    (evts.length = n → 0 < n →
      (runLoad (tileInit n) evts).loaded = true
      ∧ (runLoad (tileInit n) evts).callbackCalls = [none])
  ∧ (evts.length < n →
      (runLoad (tileInit n) evts).loaded = false
      ∧ (runLoad (tileInit n) evts).callbackCalls = []) := by
  constructor
  · intro hlen hpos
    exact runLoad_complete evts (tileInit n) rfl rfl (by simp [tileInit, hlen]) (hlen ▸ hpos)
  · intro hlt
    exact runLoad_partial evts (tileInit n) rfl rfl (by simp [tileInit]; exact_mod_cast hlt)

/-- Witness for C3: two sources, the first reporting an error, the second
succeeding; the tile still loads and the callback fires once with no error. -/
theorem tile_completion_witness :
    (runLoad (tileInit 2) [(some "ERROR in loadImage", "a", none),
        (none, "b", some (0 : Nat))]).loaded = true
    ∧ (runLoad (tileInit 2) [(some "ERROR in loadImage", "a", none),
        (none, "b", some (0 : Nat))]).callbackCalls = [none] :=
  (tile_completion 2 _).1 rfl (by norm_num)

/-! ## Draw gating theorems -/

/-- C4: the full draw sequence starts no drawing work and leaves the tile
unchanged whenever the tile is canceled, not loaded, or already
rendering/rendered; a completed draw sets `rendered` (and clears `rendering`),
so a second full draw of a rendered tile is a no-op. -/
theorem drawAll_noop (t : TileFlags) :
    ((t.canceled = true ∨ t.loaded = false ∨ t.rendering = true ∨ t.rendered = true) →
      drawAllGate t = (t, false))
  ∧ (drawAllGate (putTogether t) = (putTogether t, false)) := by
  obtain ⟨l, c, rg, rd⟩ := t
  cases l <;> cases c <;> cases rg <;> cases rd <;>
    simp [drawAllGate, putTogether]

/-- Witness for C4: an already-rendered, loaded tile is not redrawn. -/
theorem drawAll_noop_witness :
    drawAllGate ⟨true, false, false, true⟩ = (⟨true, false, false, true⟩, false) :=
  (drawAll_noop ⟨true, false, false, true⟩).1 (Or.inr (Or.inr (Or.inr rfl)))

/-! ## Scheduler theorems -/

/-- C5: (1) a chain of `n` synchronous steps enqueued by `chainSyncList` on an
otherwise empty queue executes as `s1, ..., sn, done`, one per scheduler turn;
(2) single-shot entries of equal defined rank run in queue (FIFO) order, one
per turn. -/
theorem chainSync_order (steps : List α) (finalCallback : α) (taskId : String) :
    schedRun (steps.length + 1) (chainSyncList steps finalCallback taskId [])
      = steps.map (fun s => [s]) ++ [[finalCallback]]
  ∧ (∀ (r : ℚ) (entries : List (QEntry α)),
      (∀ e ∈ entries, e.rank = some r ∧ e.job.remaining = []) →
      schedRun entries.length entries = entries.map (fun e => [e.job.final])) := by
  constructor
  · show schedRun (steps.length + 1) [⟨taskId, ⟨steps, finalCallback⟩, some 0⟩] = _
    induction steps with
    | nil => rfl
    | cons s more ih =>
      have hstep : schedStep [(⟨taskId, ⟨s :: more, finalCallback⟩, some 0⟩ : QEntry α)]
          = ([⟨taskId, ⟨more, finalCallback⟩, some 0⟩], [s]) := rfl
      show schedRun (more.length + 1 + 1)
          [⟨taskId, ⟨s :: more, finalCallback⟩, some 0⟩] = _
      rw [schedRun, hstep]
      show [s] :: schedRun (more.length + 1) [⟨taskId, ⟨more, finalCallback⟩, some 0⟩] = _
      rw [ih]
      rfl
  · intro r entries h
    induction entries with
    | nil => rfl
    | cons e rest ih =>
      have he := h e (by simp)
      have hstep : schedStep (e :: rest) = (rest, [e.job.final]) := by
        simp only [schedStep, he.1, he.2]
      show schedRun (rest.length + 1) (e :: rest) = _
      rw [schedRun, hstep]
      show [e.job.final] :: schedRun rest.length rest = _
      rw [ih (fun e2 hm => h e2 (by simp [hm]))]
      rfl

/-- Witness for C5: three steps and a final callback run in order, one per
turn; two equal-rank single-shot entries run FIFO. -/
theorem chainSync_order_witness :
    schedRun 4 (chainSyncList [1, 2, 3] 9 "t" [])
      = [[1], [2], [3], [(9 : Nat)]]
    ∧ schedRun 2 [⟨"a", ⟨[], 1⟩, some 0⟩, ⟨"b", ⟨[], 2⟩, some 0⟩]
      = [[1], [(2 : Nat)]] := by
  have h := chainSync_order [1, 2, 3] (9 : Nat) "t"
  refine ⟨h.1, ?_⟩
  have h2 := h.2 0 [⟨"a", ⟨[], 1⟩, some 0⟩, ⟨"b", ⟨[], 2⟩, some 0⟩] (by
    intro e he
    fin_cases he <;> exact ⟨rfl, rfl⟩)
  simpa using h2

/-- C8: evaluation of `sortTasks` at the failing input.  With queued ids
`a, b, c` and a ranking assigning `5`, `undefined`, `3`, the sorted queue
keeps order `[5, undefined, 3]`: the entry with undefined rank is **not**
placed first and the defined ranks are **not** ascending, contradicting the
claim (and the code's own comment).  The comparator
`(a.rank > b.rank) ? 1 : -1` treats every comparison with `undefined` as
"keep the first argument first", so no mainstream sort implementation moves
the undefined entry to the front. -/
theorem sortTasks_cx :
    (sortTasks (fun i => if i = "a" then some 5 else if i = "b" then none else some 3)
        [⟨"a", ⟨[], 0⟩, some 0⟩, ⟨"b", ⟨[], 0⟩, some 0⟩, ⟨"c", ⟨[], (0 : Nat)⟩, some 0⟩]).map
      (fun e => e.rank)
    = [some 5, none, some 3] := by
  decide

/-! ## Label collision theorems -/

theorem collides_iff (boxes : List Box) (ob : Option Box) :
    collides boxes ob = true
      ↔ ∃ box ∈ boxes, ∃ b, ob = some b ∧ intersects box b = true := by
  cases ob with
  | none => simp [collides]
  | some b => simp [collides, List.any_eq_true]

theorem drawLabel_boxes_extend (measureText measureIcon : FT → Option Box)
    (st : List Box × List FT) (f : FT) :
    ∃ u, (drawLabel measureText measureIcon st f).1 = st.1 ++ u := by
  unfold drawLabel
  by_cases h1 : collides st.1 (measureText f) = true
  · exact ⟨[], by simp [h1]⟩
  · by_cases h2 : collides st.1 (measureIcon f) = true
    · exact ⟨[], by simp [h1, h2]⟩
    · refine ⟨(measureText f).toList ++ (measureIcon f).toList, ?_⟩
      simp [h1, h2]

theorem labelPass_boxes_extend (measureText measureIcon : FT → Option Box)
    (features : List FT) (st : List Box × List FT) :
    ∃ tail, (labelPass measureText measureIcon st features).1 = st.1 ++ tail := by
  induction features generalizing st with
  | nil => exact ⟨[], by simp [labelPass]⟩
  | cons f fs ih =>
    obtain ⟨u, hu⟩ := drawLabel_boxes_extend measureText measureIcon st f
    obtain ⟨t, ht⟩ := ih (drawLabel measureText measureIcon st f)
    refine ⟨u ++ t, ?_⟩
    simp only [labelPass, List.foldl_cons] at ht ⊢
    rw [ht, hu, List.append_assoc]

/-- C9: a feature is drawn exactly when neither its text box nor its icon box
(when present) intersects a box already accepted when the feature is visited;
a colliding feature is suppressed entirely (no boxes added, nothing drawn);
an accepted feature appends both its boxes, the accepted-box list only grows
within a pass (so it blocks later features and later symbol layers sharing
it), and features are visited in source order (the pass decomposes along the
feature list). -/
theorem labeler_collision (measureText measureIcon : FT → Option Box)
    (st : List Box × List FT) (f : FT) (pre post : List FT) :
    ((drawLabel measureText measureIcon st f).2 = st.2 ++ [f]
        ↔ ¬ ∃ box ∈ st.1,
            (∃ tb, measureText f = some tb ∧ intersects box tb = true)
          ∨ (∃ ib, measureIcon f = some ib ∧ intersects box ib = true))
  ∧ (collides st.1 (measureText f) = false ∧ collides st.1 (measureIcon f) = false →
      drawLabel measureText measureIcon st f
        = (st.1 ++ (measureText f).toList ++ (measureIcon f).toList, st.2 ++ [f]))
  ∧ (collides st.1 (measureText f) = true ∨ collides st.1 (measureIcon f) = true →
      drawLabel measureText measureIcon st f = st)
  ∧ (∃ tail, (labelPass measureText measureIcon st (pre ++ post)).1 = st.1 ++ tail)
  ∧ labelPass measureText measureIcon st (pre ++ f :: post)
      = labelPass measureText measureIcon
          (drawLabel measureText measureIcon (labelPass measureText measureIcon st pre) f)
          post := by
  have hpos : collides st.1 (measureText f) = false ∧ collides st.1 (measureIcon f) = false →
      drawLabel measureText measureIcon st f
        = (st.1 ++ (measureText f).toList ++ (measureIcon f).toList, st.2 ++ [f]) := by
    intro ⟨h1, h2⟩
    simp [drawLabel, h1, h2]
  have hneg : collides st.1 (measureText f) = true ∨ collides st.1 (measureIcon f) = true →
      drawLabel measureText measureIcon st f = st := by
    intro h
    rcases h with h | h
    · simp [drawLabel, h]
    · by_cases h1 : collides st.1 (measureText f) = true
      · simp [drawLabel, h1]
      · simp [drawLabel, h1, h]
  refine ⟨?_, hpos, hneg, labelPass_boxes_extend measureText measureIcon (pre ++ post) st, ?_⟩
  · constructor
    · intro hdrawn
      intro ⟨box, hbox, hcase⟩
      have hcol : collides st.1 (measureText f) = true ∨ collides st.1 (measureIcon f) = true := by
        rcases hcase with ⟨tb, htb, hint⟩ | ⟨ib, hib, hint⟩
        · exact Or.inl ((collides_iff st.1 (measureText f)).mpr ⟨box, hbox, tb, htb, hint⟩)
        · exact Or.inr ((collides_iff st.1 (measureIcon f)).mpr ⟨box, hbox, ib, hib, hint⟩)
      have := hneg hcol
      rw [this] at hdrawn
      have : st.2.length = (st.2 ++ [f]).length := by rw [← hdrawn]
      simp at this
    · intro hnone
      have h1 : collides st.1 (measureText f) = false := by
        rcases hc : collides st.1 (measureText f) with _ | _
        · rfl
        · obtain ⟨box, hbox, b, hb, hint⟩ := (collides_iff st.1 (measureText f)).mp hc
          exact absurd ⟨box, hbox, Or.inl ⟨b, hb, hint⟩⟩ hnone
      have h2 : collides st.1 (measureIcon f) = false := by
        rcases hc : collides st.1 (measureIcon f) with _ | _
        · rfl
        · obtain ⟨box, hbox, b, hb, hint⟩ := (collides_iff st.1 (measureIcon f)).mp hc
          exact absurd ⟨box, hbox, Or.inr ⟨b, hb, hint⟩⟩ hnone
      rw [hpos ⟨h1, h2⟩]
  · simp only [labelPass, List.foldl_append, List.foldl_cons]

/-- Witness for C9: a feature whose text box overlaps an already accepted box
is suppressed entirely. -/
theorem labeler_collision_witness :
    drawLabel (fun _ : Nat => some ⟨0, 0, 1, 1⟩) (fun _ => none)
        ([⟨0, 0, 2, 2⟩], []) 0 = ([⟨0, 0, 2, 2⟩], []) :=
  (labeler_collision (fun _ : Nat => some ⟨0, 0, 1, 1⟩) (fun _ => none)
      ([⟨0, 0, 2, 2⟩], []) 0 [] []).2.2.1 (Or.inl (by decide))

/-! ## Malformed stop-table theorems -/

/-- C6: evaluation of the style compiler at the failing input.  For a
zoom-typed background property with a malformed stop table (`stops: []`),
`getStyleFunc` does detect the error at layer-setup time (it logs and
produces no function), but the layer is **not** skipped: `buildStyleFunc`
immediately executes `styleFunc.type = "zoom"` on the `undefined` result,
a setup-time TypeError that propagates out of
`collectGetters`/`initPainter`/`addPainterFunctions` to the `loadStyle`
promise catch, so the whole style load fails - with a well-formed second
layer present, that layer is never compiled or drawn either.  This
contradicts the claim that the offending layer is dropped and evaluation
and drawing of the remaining layers proceeds. -/
theorem malformedStops_notSkipped (pow : ℚ → ℚ → ℚ) (dflt : ℚ)
    (getArg : ℚ → Feature → ℚ) :
    getStyleFunc pow { stops := some [] } getArg = none
  ∧ buildStyleFunc pow (some (StyleVal.spec { stops := some [] })) dflt
      = Except.error "TypeError: Cannot set properties of undefined"
  ∧ addPainterFunctions pow
      [[("background-color", StyleVal.spec { stops := some [] })],
       [("background-color", StyleVal.lit 1)]]
      = Except.error "TypeError: Cannot set properties of undefined" := by
  refine ⟨rfl, rfl, rfl⟩
end Tilekiln
